import Mathlib

/-!
# Verification of the defi-tracker aggregation-and-ranking pipeline

Shallow embedding of the repository's Python sources:

* `scripts/update_latest.py` — the snapshot updater (classifier `is_stable`
  with the `"A"` prefix rule, `is_eth`, the per-market GraphQL processing
  loop with its quality-filter counters, the 4-tier sort `sort_markets`,
  and the snapshot assembly with the `minTvlUsd` default).
* `scripts/latest.py` — the per-reserve variant (classifier `is_stable`
  with `"A"` and `"W"` prefix rules, `is_ethereum_chain`, and an
  identically-keyed `sort_markets`).

Modelling conventions:

* Python `float` values are modelled as `Rat`; the program only multiplies
  and compares them, and every claim under study concerns ordering and
  field propagation, not rounding.
* Python `str` is a sequence of code points; the helpers below work on
  the underlying character list (`String.data`).  `str.upper()` /
  `str.lower()` map `Char.toUpper` / `Char.toLower` over the characters
  and `str.strip()` drops whitespace from both ends (faithful on the
  ASCII symbols the program handles); Python's string comparison is
  code-point-wise lexicographic, i.e. the lexicographic order on the
  character lists.
* A JSON value that may be `null` (or an absent key) is an `Option`;
  Python `x or default` on such a value is `Option.getD` (the program only
  applies it where the defaulted falsy values coincide).
* I/O (HTTP transport, file writes, the wall-clock timestamp) stays
  outside the embedding: a run is a pure function from the fetched
  payloads to `Except String Snapshot`, and the snapshot file is written
  exactly when the result is `.ok` (in the script, the `write_text` call
  is only reached when no exception was raised).
-/

namespace DefiTracker

/-- Python `str.upper()` (modelled character-wise). -/
def pyUpper (s : String) : String := ⟨s.data.map Char.toUpper⟩

/-- Python `str.lower()` (modelled character-wise). -/
def pyLower (s : String) : String := ⟨s.data.map Char.toLower⟩

/-- Python `str.strip()`: drop whitespace from both ends. -/
def pyStrip (s : String) : String :=
  ⟨((s.data.dropWhile Char.isWhitespace).reverse.dropWhile Char.isWhitespace).reverse⟩

/-- Python `str.startswith(c)` for a one-character prefix (the only shape
the scripts use). -/
def pyStartsWith (s : String) (c : Char) : Bool := s.data.head? = some c

/-- Python `s[1:]`. -/
def pyDrop1 (s : String) : String := ⟨s.data.drop 1⟩

/-- `STABLE_SYMBOLS` from both scripts (identical 7-element set, DAI removed). -/
def STABLE_SYMBOLS : List String :=
  ["USDC", "USDT", "USDE", "SUSDE", "PYUSD", "RLUSD", "USDG"]

namespace UpdateLatest

/-- `is_stable` from `scripts/update_latest.py` (lines 36–42):
uppercase, strip, strip a single `"A"` prefix when the remainder is a
stable symbol, then test membership. -/
def is_stable (symbol : String) : Bool :=
  if symbol = "" then false
  else
    let s := pyStrip (pyUpper symbol)
    let s := if pyStartsWith s 'A' ∧ pyDrop1 s ∈ STABLE_SYMBOLS then pyDrop1 s else s
    decide (s ∈ STABLE_SYMBOLS)

/-- `is_eth` from `scripts/update_latest.py` (lines 45–46). -/
def is_eth (chain_id : Int) : Bool :=
  chain_id = 1

end UpdateLatest

namespace Latest

/-- `is_stable` from `scripts/latest.py` (lines 33–44): like the updater's
variant but with an additional `"W"` wrapper-prefix rule. -/
def is_stable (symbol : String) : Bool :=
  if symbol = "" then false
  else
    let s := pyStrip (pyUpper symbol)
    let s := if pyStartsWith s 'A' ∧ pyDrop1 s ∈ STABLE_SYMBOLS then pyDrop1 s else s
    let s := if pyStartsWith s 'W' ∧ pyDrop1 s ∈ STABLE_SYMBOLS then pyDrop1 s else s
    decide (s ∈ STABLE_SYMBOLS)

/-- `is_ethereum_chain` from `scripts/latest.py` (lines 46–51): true when
`chain_id == 1`, otherwise when the lowercased, stripped chain name is one
of `{"ethereum", "eth", "mainnet"}`. -/
def is_ethereum_chain (chain : String) (chain_id : Int) : Bool :=
  if chain_id = 1 then true
  else
    let c := pyStrip (pyLower chain)
    decide (c ∈ ["ethereum", "eth", "mainnet"])

end Latest

/-- One row of the output `markets` list, as assembled in
`scripts/update_latest.py` lines 162–176 (`segment` and `protocol` are the
constants `"evm"` / `"aave"` in every row). -/
structure MarketRow where
  segment : String := "evm"
  protocol : String := "aave"
  chain : String
  chainId : Int
  market : String
  symbol : String
  underlyingToken : String
  supplyApy : Rat
  borrowApy : Rat
  utilization : Rat
  tvlUsd : Rat
  isStable : Bool
  isEthereum : Bool
deriving DecidableEq

/-- The tier number of `sort_markets.key` (both scripts, identical
branches): 0 = stable ∧ ethereum, 1 = stable ∧ ¬ethereum,
2 = ¬stable ∧ ethereum, 3 = ¬stable ∧ ¬ethereum. -/
def groupOf (r : MarketRow) : Nat :=
  if r.isStable && r.isEthereum then 0
  else if r.isStable && !r.isEthereum then 1
  else if !r.isStable && r.isEthereum then 2
  else 3

/-- The primary sort value of `sort_markets.key`: `borrowApy` in the stable
tiers, `-supplyApy` in the non-stable tiers.  (The Python
`float(r.get("borrowApy") or 0.0)` equals the stored float: a present
`0.0` is falsy but the fallback is `0.0` as well.) -/
def primaryOf (r : MarketRow) : Rat :=
  if r.isStable && r.isEthereum then r.borrowApy
  else if r.isStable && !r.isEthereum then r.borrowApy
  else if !r.isStable && r.isEthereum then -r.supplyApy
  else -r.supplyApy

/-- The lexicographic sort-key type `(group, primary, -tvlUsd, symbol, chain)`.
The two string components are compared the way Python compares `str`:
lexicographically by code point, i.e. as their character lists. -/
abbrev SortKeyT : Type :=
  Lex (Nat × Lex (Rat × Lex (Rat × Lex (List Char × List Char))))

/-- `sort_markets.key` from `scripts/update_latest.py` lines 57–77
(`scripts/latest.py` lines 111–138 computes the identical tuple). -/
def key (r : MarketRow) : SortKeyT :=
  toLex (groupOf r, toLex (primaryOf r, toLex (-r.tvlUsd, toLex (r.symbol.data, r.chain.data))))

/-- The comparison Python's stable `sorted` uses: key-wise `≤`. -/
def keyLe (a b : MarketRow) : Prop := key a ≤ key b

instance : DecidableRel keyLe :=
  fun a b => inferInstanceAs (Decidable (key a ≤ key b))

instance : IsTotal MarketRow keyLe :=
  ⟨fun a b => le_total (key a) (key b)⟩

instance : IsTrans MarketRow keyLe :=
  ⟨fun _ _ _ hab hbc => le_trans hab hbc⟩

/-- `sort_markets` (both scripts): Python's stable `sorted(rows, key=key)`,
modelled by insertion sort on the key order (insertion sort with a
non-strict total comparison is stable). -/
def sort_markets (rows : List MarketRow) : List MarketRow :=
  List.insertionSort keyLe rows

/-! ## The raw GraphQL response shapes (`update_latest.py` market query)

A field that may be JSON `null` (or an absent key) is an `Option`.  The
script's falsiness checks (`if not supply_info`, `... or {}`, `... or ""`)
are applied to GraphQL object/string fields, where the only falsy value
that occurs is `null` / absent, modelled as `none`. -/

/-- A `{ value }` wrapper object (`apy`, `total`, `utilizationRate`). -/
structure ValueObj where
  value : Option Rat
deriving DecidableEq

/-- The `borrowInfo.total` object; only `usdPerToken` is queried. -/
structure UsdObj where
  usdPerToken : Option Rat
deriving DecidableEq

/-- The per-reserve `underlyingToken { address symbol }` object. -/
structure TokenObj where
  address : Option String
  symbol : Option String
deriving DecidableEq

/-- `supplyInfo { apy { value } total { value } }`. -/
structure SupplyInfo where
  apy : Option ValueObj
  total : Option ValueObj
deriving DecidableEq

/-- `borrowInfo { apy { value } total { usdPerToken } utilizationRate { value } }`. -/
structure BorrowInfo where
  apy : Option ValueObj
  total : Option UsdObj
  utilizationRate : Option ValueObj
deriving DecidableEq

/-- One raw reserve entry of the market payload. -/
structure RawReserve where
  underlyingToken : Option TokenObj
  supplyInfo : Option SupplyInfo
  borrowInfo : Option BorrowInfo
deriving DecidableEq

/-- The `market.chain { chainId name }` object. -/
structure ChainObj where
  chainId : Int
  name : Option String
deriving DecidableEq

/-- The `market` payload of one GraphQL response. -/
structure MarketData where
  chain : ChainObj
  reserves : Option (List RawReserve)
deriving DecidableEq

/-- One GraphQL response body: a possible `errors` array (empty = absent /
falsy) and the `data.market` payload (`none` = absent or `null`). -/
structure GqlPayload where
  errors : List String
  market : Option MarketData
deriving DecidableEq

/-- One entry of the configured market list (`data/markets.json`
`evm.aave.markets[*]`: `{chainId, market}`). -/
structure MarketDesc where
  chainId : Int
  market : String
deriving DecidableEq

/-- What the per-reserve body of `main`'s loop (`update_latest.py` lines
120–179) does to one candidate: skip counting it under `skipped_nulls`,
skip counting it under `skipped_small`, or keep a built row. -/
inductive ReserveOutcome where
  | skippedNull
  | skippedSmall
  | kept (row : MarketRow)
deriving DecidableEq

/-- The normalize–classify–filter body of the reserve loop
(`update_latest.py` lines 120–176), minus the counter updates. -/
def processReserve (minTvl : Rat) (chainId : Int) (chainName : String)
    (marketAddr : String) (r : RawReserve) : ReserveOutcome :=
  let token := r.underlyingToken.getD { address := none, symbol := none }
  let symbol := token.symbol.getD ""
  let underlyingAddr := token.address.getD ""
  match r.supplyInfo, r.borrowInfo with
  | some si, some bi =>
    let supplyApyObj := si.apy.getD { value := none }
    let borrowApyObj := bi.apy.getD { value := none }
    let utilObj := bi.utilizationRate.getD { value := none }
    let borrowTotal := bi.total.getD { usdPerToken := none }
    let supplyTotalObj := si.total.getD { value := none }
    match supplyApyObj.value, borrowApyObj.value, utilObj.value,
        borrowTotal.usdPerToken, supplyTotalObj.value with
    | some supplyApy, some borrowApy, some util, some usdPerToken, some supplyTotal =>
      let tvlUsd := supplyTotal * usdPerToken
      if tvlUsd < minTvl then .skippedSmall
      else .kept
        { chain := chainName, chainId := chainId, market := marketAddr,
          symbol := symbol, underlyingToken := underlyingAddr,
          supplyApy := supplyApy, borrowApy := borrowApy, utilization := util,
          tvlUsd := tvlUsd,
          isStable := UpdateLatest.is_stable symbol,
          isEthereum := UpdateLatest.is_eth chainId }
    | _, _, _, _, _ => .skippedNull
  | _, _ => .skippedNull

/-- The `totals` counter dictionary of `update_latest.py` line 98. -/
structure Totals where
  reserves : Nat
  skipped_nulls : Nat
  skipped_small : Nat
  kept : Nat
deriving DecidableEq

/-- The initial counters `{"reserves": 0, "skipped_nulls": 0,
"skipped_small": 0, "kept": 0}`. -/
def Totals.zero : Totals := ⟨0, 0, 0, 0⟩

/-- One iteration of the reserve loop: bump `reserves`, then bump exactly
one of the three outcome counters, appending the row in the kept case. -/
def stepReserve (minTvl : Rat) (chainId : Int) (chainName : String)
    (marketAddr : String) (acc : List MarketRow × Totals) (r : RawReserve) :
    List MarketRow × Totals :=
  let t := { acc.2 with reserves := acc.2.reserves + 1 }
  match processReserve minTvl chainId chainName marketAddr r with
  | .skippedNull => (acc.1, { t with skipped_nulls := t.skipped_nulls + 1 })
  | .skippedSmall => (acc.1, { t with skipped_small := t.skipped_small + 1 })
  | .kept row => (acc.1 ++ [row], { t with kept := t.kept + 1 })

/-- The per-market body of `main`'s loop (`update_latest.py` lines
105–179), given the already-fetched response: raise on a GraphQL error
array, raise on a missing/null `market`, otherwise fold the reserve loop
over the reserve list. -/
def processMarket (minTvl : Rat) (m : MarketDesc) (p : GqlPayload)
    (acc : List MarketRow × Totals) : Except String (List MarketRow × Totals) :=
  if p.errors ≠ [] then
    .error ("GraphQL errors: " ++ String.intercalate ", " p.errors)
  else
    match p.market with
    | none =>
      .error ("Market not found for chainId=" ++ toString m.chainId
        ++ " address=" ++ m.market)
    | some md =>
      let chainId := md.chain.chainId
      let chainName := pyLower (md.chain.name.getD "")
      let reserves := md.reserves.getD []
      .ok (reserves.foldl (stepReserve minTvl chainId chainName m.market) acc)

/-- Sequential processing of all configured markets, threading the row
accumulator and counters; the first raising market aborts the run. -/
def processMarkets (minTvl : Rat) :
    List (MarketDesc × GqlPayload) → List MarketRow × Totals →
    Except String (List MarketRow × Totals)
  | [], acc => .ok acc
  | (m, p) :: rest, acc =>
    match processMarket minTvl m p acc with
    | .error e => .error e
    | .ok acc' => processMarkets minTvl rest acc'

/-- The output document of `update_latest.py` lines 183–188, minus the
wall-clock `updatedAt` timestamp (outside the embedding). -/
structure Snapshot where
  markets : List MarketRow
  counts : Totals
  minTvlUsd : Rat
deriving DecidableEq

instance {ε α : Type} [DecidableEq ε] [DecidableEq α] : DecidableEq (Except ε α) :=
  fun a b =>
    match a, b with
    | .error e, .error f => decidable_of_iff (e = f) (by simp)
    | .ok x, .ok y => decidable_of_iff (x = y) (by simp)
    | .error _, .ok _ => .isFalse (fun h => Except.noConfusion h)
    | .ok _, .error _ => .isFalse (fun h => Except.noConfusion h)

/-- A whole run of `update_latest.py`'s `main`, as a pure function from
the configured `minTvlUsd` (absent key = `none`; line 88 defaults it to
`10_000_000`) and the fetched per-descriptor payloads to either the
snapshot value that gets written to `latest.json`, or the raised error.
The snapshot file is written exactly when the result is `.ok`. -/
def runUpdate (minTvlOpt : Option Rat) (fetched : List (MarketDesc × GqlPayload)) :
    Except String Snapshot :=
  let minTvl := minTvlOpt.getD 10000000
  if fetched = [] then
    .error "No markets found at data/markets.json -> evm -> aave -> markets"
  else
    match processMarkets minTvl fetched ([], Totals.zero) with
    | .error e => .error e
    | .ok (rows, totals) =>
      .ok { markets := sort_markets rows, counts := totals, minTvlUsd := minTvl }

/-! ## Order-theoretic facts about the Ranker -/

theorem sort_markets_sorted (rows : List MarketRow) :
    (sort_markets rows).Sorted keyLe :=
  List.sorted_insertionSort keyLe rows

theorem sort_markets_perm (rows : List MarketRow) :
    (sort_markets rows).Perm rows :=
  List.perm_insertionSort keyLe rows

/-- In the Ranker's output, a row whose key is strictly below another
row's key sits at a strictly smaller index. -/
theorem key_lt_precedes (rows : List MarketRow)
    (i j : Fin (sort_markets rows).length)
    (h : key ((sort_markets rows).get i) < key ((sort_markets rows).get j)) :
    (i : Nat) < (j : Nat) := by
  rcases lt_trichotomy (i : Nat) (j : Nat) with hlt | heq | hgt
  · exact hlt
  · exact absurd h (by rw [Fin.ext heq]; exact lt_irrefl _)
  · have hji : j < i := hgt
    have hle : keyLe ((sort_markets rows).get j) ((sort_markets rows).get i) :=
      (sort_markets_sorted rows).rel_get_of_lt hji
    exact absurd h (not_lt.mpr hle)

theorem key_lt_of_group_lt {a b : MarketRow} (h : groupOf a < groupOf b) :
    key a < key b := by
  rw [key, key, Prod.Lex.lt_iff]
  exact Or.inl h

theorem key_lt_of_group_eq_primary_lt {a b : MarketRow}
    (hg : groupOf a = groupOf b) (h : primaryOf a < primaryOf b) :
    key a < key b := by
  rw [key, key, Prod.Lex.lt_iff]
  refine Or.inr ⟨hg, ?_⟩
  show toLex (primaryOf a, _) < toLex (primaryOf b, _)
  rw [Prod.Lex.lt_iff]
  exact Or.inl h

theorem groupOf_stable_eth {a : MarketRow} (h1 : a.isStable = true)
    (h2 : a.isEthereum = true) : groupOf a = 0 := by
  simp [groupOf, h1, h2]

theorem groupOf_stable_noneth {a : MarketRow} (h1 : a.isStable = true)
    (h2 : a.isEthereum = false) : groupOf a = 1 := by
  simp [groupOf, h1, h2]

theorem primaryOf_stable {a : MarketRow} (h1 : a.isStable = true)
    (h2 : a.isEthereum = true) : primaryOf a = a.borrowApy := by
  simp [primaryOf, h1, h2]

/-- The exact decimal constants of the spec's scenarios: `mkRat n 100` is
the rational `n/100`, i.e. `0.0n`. -/
theorem mkRat_over_100_eq_div (n : Nat) : (mkRat n 100 : Rat) = (n : Rat) / 100 := by
  rw [Rat.mkRat_eq_div]
  norm_num

/-! ## Concrete rows for the spec's ranking scenario (C1) -/

/-- Scenario row `{sym:"USDC", chain:1, stable, eth, borrowApy:0.05, tvl:5e9}`. -/
def usdcRow : MarketRow :=
  { chain := "ethereum", chainId := 1, market := "0xcore", symbol := "USDC",
    underlyingToken := "0xusdc", supplyApy := 0, borrowApy := mkRat 5 100,
    utilization := 0, tvlUsd := 5000000000, isStable := true, isEthereum := true }

/-- Scenario row `{sym:"USDT", chain:1, stable, eth, borrowApy:0.03, tvl:2e9}`. -/
def usdtRow : MarketRow :=
  { usdcRow with
    symbol := "USDT", borrowApy := mkRat 3 100, tvlUsd := 2000000000 }

/-- Scenario row `{sym:"WETH", chain:1, non-stable, eth, supplyApy:0.04, tvl:1e10}`. -/
def wethRow : MarketRow :=
  { usdcRow with
    symbol := "WETH", borrowApy := 0, supplyApy := mkRat 4 100,
    tvlUsd := 10000000000, isStable := false }

/-- A stable/ethereum row with `borrowApy = 0.02` (tier-boundary test). -/
def row02 : MarketRow :=
  { usdcRow with borrowApy := mkRat 2 100 }

/-- A stable, non-ethereum row (tier 1) with a very low borrow APY and a
huge TVL — still ranked after every stable/ethereum row. -/
def polyRow : MarketRow :=
  { usdcRow with
    chain := "polygon", chainId := 137, isEthereum := false,
    borrowApy := mkRat 1 100, tvlUsd := 999999999999 }

/-- Input list exercising the tier boundary of C1. -/
def boundaryRows : List MarketRow := [polyRow, usdcRow, row02]

set_option maxRecDepth 10000 in
/-- **C1**: the Ranker realises the 4-tier policy.  (1) On the spec's
three-row scenario, `sort_markets` returns the order `[USDT, USDC, WETH]`.
(2) Every output is a permutation of the input ordered by the key
`(group, primary, -tvlUsd, symbol, chain)`.  (3) In any output of
`sort_markets`, a stable/ethereum row with `borrowApy = 0.02` sits
strictly before a stable/ethereum row with `borrowApy = 0.05`, and
(4) any stable/ethereum row with `borrowApy` 0.02 or 0.05 sits strictly
before every stable non-ethereum row. -/
theorem sort_markets_tier_policy :
    ((sort_markets [usdcRow, usdtRow, wethRow]).map (fun r => r.symbol)
        = ["USDT", "USDC", "WETH"])
    ∧ (∀ rows : List MarketRow,
        (sort_markets rows).Sorted keyLe ∧ (sort_markets rows).Perm rows)
    ∧ (∀ (rows : List MarketRow) (i j : Fin (sort_markets rows).length),
        ((sort_markets rows).get i).isStable = true →
        ((sort_markets rows).get i).isEthereum = true →
        ((sort_markets rows).get i).borrowApy = mkRat 2 100 →
        ((sort_markets rows).get j).isStable = true →
        ((sort_markets rows).get j).isEthereum = true →
        ((sort_markets rows).get j).borrowApy = mkRat 5 100 →
        (i : Nat) < (j : Nat))
    ∧ (∀ (rows : List MarketRow) (i j : Fin (sort_markets rows).length),
        ((sort_markets rows).get i).isStable = true →
        ((sort_markets rows).get i).isEthereum = true →
        (((sort_markets rows).get i).borrowApy = mkRat 2 100 ∨
          ((sort_markets rows).get i).borrowApy = mkRat 5 100) →
        ((sort_markets rows).get j).isStable = true →
        ((sort_markets rows).get j).isEthereum = false →
        (i : Nat) < (j : Nat)) := by
  refine ⟨by decide, fun rows => ⟨sort_markets_sorted rows, sort_markets_perm rows⟩, ?_, ?_⟩
  · intro rows i j h1 h2 h3 h4 h5 h6
    apply key_lt_precedes
    apply key_lt_of_group_eq_primary_lt
    · rw [groupOf_stable_eth h1 h2, groupOf_stable_eth h4 h5]
    · rw [primaryOf_stable h1 h2, primaryOf_stable h4 h5, h3, h6]
      decide
  · intro rows i j h1 h2 _ h4 h5
    apply key_lt_precedes
    apply key_lt_of_group_lt
    rw [groupOf_stable_eth h1 h2, groupOf_stable_noneth h4 h5]
    decide

set_option maxRecDepth 10000 in
/-- Witness for C1's quantified parts, on the concrete `boundaryRows`
input (sorted output `[row02, usdcRow, polyRow]`): the 0.02 row precedes
the 0.05 row, which precedes the stable non-ethereum row. -/
theorem sort_markets_tier_policy_witness : (0 : Nat) < 1 ∧ (1 : Nat) < 2 :=
  ⟨sort_markets_tier_policy.2.2.1 boundaryRows ⟨0, by decide⟩ ⟨1, by decide⟩
      (by decide) (by decide) (by decide) (by decide) (by decide) (by decide),
    sort_markets_tier_policy.2.2.2 boundaryRows ⟨1, by decide⟩ ⟨2, by decide⟩
      (by decide) (by decide) (Or.inr (by decide)) (by decide) (by decide)⟩

/-! ## Ties in the sort key (C3, C8) -/

/-- A kept row with a key-colliding twin: same classification, APYs, TVL,
symbol and chain as `tieRowB`, different `market` and `utilization`. -/
def tieRowA : MarketRow :=
  { usdcRow with
    borrowApy := mkRat 2 100, tvlUsd := 20000000, utilization := mkRat 1 2 }

/-- Distinct from `tieRowA` (other market address and utilization) but
with an identical sort key. -/
def tieRowB : MarketRow :=
  { tieRowA with
    market := "0xprime", utilization := mkRat 3 4 }

set_option maxRecDepth 10000 in
/-- **C3 counterexample**: two distinct rows whose sort keys compare
equal — the key reads neither `market` nor `utilization`, so the claimed
"no two distinct rows are tied" fails on the code. -/
theorem sort_key_ties_distinct_rows : tieRowA ≠ tieRowB ∧ key tieRowA = key tieRowB := by
  constructor <;> decide

/-- **C3 (amended)**: the comparison ties two rows exactly when they agree
on all five key fields `(group, primary, tvlUsd, symbol, chain)`; rows
differing in any key field never compare equal, while distinct rows that
agree on all five (differing only outside the key, e.g. in `market` or
`utilization`) do tie. -/
theorem sort_key_tie_characterization (a b : MarketRow) :
    key a = key b ↔ (groupOf a = groupOf b ∧ primaryOf a = primaryOf b ∧
      a.tvlUsd = b.tvlUsd ∧ a.symbol = b.symbol ∧ a.chain = b.chain) := by
  simp [key, Prod.ext_iff, neg_inj, String.ext_iff]

/-- Refinement of the key order used to transfer `eq_of_perm_of_sorted`:
key-`≤` strengthened with "key-equal elements are equal", which is
antisymmetric outright. -/
def tieLe (a b : MarketRow) : Prop := key a ≤ key b ∧ (key a = key b → a = b)

instance : IsAntisymm MarketRow tieLe :=
  ⟨fun _ _ hab hba => hab.2 (le_antisymm hab.1 hba.1)⟩

set_option maxRecDepth 40000 in
/-- **C8 counterexample**: the Ranker's output is *not* invariant under
permuting its input when two distinct rows share a sort key — the stable
sort preserves the arrival order of key-tied rows. -/
theorem sort_markets_perm_counterexample :
    List.Perm [tieRowB, tieRowA] [tieRowA, tieRowB] ∧
      sort_markets [tieRowB, tieRowA] ≠ sort_markets [tieRowA, tieRowB] := by
  constructor <;> decide

/-- **C8 (amended)**: the Ranker's output is independent of the fetch
(arrival) order whenever no two distinct rows of the input share a sort
key; under that hypothesis `sort_markets` maps any permutation of the
input to the same output sequence. -/
theorem sort_markets_perm_invariant (l l' : List MarketRow) (hperm : l.Perm l')
    (hkeys : ∀ a ∈ l, ∀ b ∈ l, key a = key b → a = b) :
    sort_markets l = sort_markets l' := by
  have hmem : ∀ x ∈ sort_markets l, x ∈ l := fun x hx =>
    (sort_markets_perm l).mem_iff.mp hx
  have hmem' : ∀ x ∈ sort_markets l', x ∈ l := fun x hx =>
    hperm.mem_iff.mpr ((sort_markets_perm l').mem_iff.mp hx)
  have hs1 : (sort_markets l).Sorted tieLe := by
    refine List.Pairwise.imp_of_mem ?_ (sort_markets_sorted l)
    intro a b ha hb hab
    exact ⟨hab, fun he => hkeys a (hmem a ha) b (hmem b hb) he⟩
  have hs2 : (sort_markets l').Sorted tieLe := by
    refine List.Pairwise.imp_of_mem ?_ (sort_markets_sorted l')
    intro a b ha hb hab
    exact ⟨hab, fun he => hkeys a (hmem' a ha) b (hmem' b hb) he⟩
  exact List.eq_of_perm_of_sorted
    ((sort_markets_perm l).trans (hperm.trans (sort_markets_perm l').symm)) hs1 hs2

set_option maxRecDepth 40000 in
/-- Witness for the amended C8 on a concrete two-row input with distinct
keys, permuted. -/
theorem sort_markets_perm_invariant_witness :
    sort_markets [usdcRow, usdtRow] = sort_markets [usdtRow, usdcRow] :=
  sort_markets_perm_invariant [usdcRow, usdtRow] [usdtRow, usdcRow]
    (by decide) (by decide)

/-! ## Classifier characterizations (C4, C5) -/

/-- No stablecoin symbol starts with `'W'` (so the `"W"` rule in
`latest.py` can never fire after the `"A"` rule has stripped). -/
theorem stable_symbols_no_W : ∀ x ∈ STABLE_SYMBOLS, pyStartsWith x 'W' = false := by
  decide

/-- **C5 counterexample**: the per-reserve classifier
`is_ethereum_chain` returns `true` for `chainId = 10` when the chain-name
string is `"ethereum"`, so "for any chainId other than 1 the classifier
returns false regardless of any chain-name string" fails on the code. -/
theorem is_ethereum_chain_name_counterexample :
    Latest.is_ethereum_chain "ethereum" 10 = true ∧ (10 : Int) ≠ 1 := by
  constructor <;> decide

/-- **C5 (amended)**: `is_eth` (the snapshot updater) is true iff
`chainId = 1`; the per-reserve variant `is_ethereum_chain` is true iff
`chainId = 1` *or* the lowercased, stripped chain name is one of
`{"ethereum", "eth", "mainnet"}`. -/
theorem is_ethereum_spec :
    (∀ cid : Int, UpdateLatest.is_eth cid = true ↔ cid = 1)
    ∧ (∀ (chain : String) (cid : Int),
        Latest.is_ethereum_chain chain cid = true ↔
          (cid = 1 ∨ pyStrip (pyLower chain) ∈ ["ethereum", "eth", "mainnet"])) := by
  constructor
  · intro cid
    simp [UpdateLatest.is_eth]
  · intro chain cid
    rw [Latest.is_ethereum_chain]
    split_ifs with h
    · simp [h]
    · simp [h]

/-- **C4**: `is_stable` returns true iff the uppercased, stripped symbol
is in the fixed 7-element stable set, or consists of the single-character
wrapper prefix `'A'` (in `latest.py` additionally `'W'`) followed by a
member of the set.  `DAI` is not stable in either variant, and no more
than one prefix character is ever stripped (`AWUSDC`, `WAUSDC`, `AAUSDC`
are all non-stable even in the two-prefix variant). -/
theorem is_stable_spec :
    (∀ s : String, UpdateLatest.is_stable s = true ↔
      (pyStrip (pyUpper s) ∈ STABLE_SYMBOLS ∨
        (pyStartsWith (pyStrip (pyUpper s)) 'A' = true ∧
          pyDrop1 (pyStrip (pyUpper s)) ∈ STABLE_SYMBOLS)))
    ∧ (∀ s : String, Latest.is_stable s = true ↔
      (pyStrip (pyUpper s) ∈ STABLE_SYMBOLS ∨
        ((pyStartsWith (pyStrip (pyUpper s)) 'A' = true ∨
            pyStartsWith (pyStrip (pyUpper s)) 'W' = true) ∧
          pyDrop1 (pyStrip (pyUpper s)) ∈ STABLE_SYMBOLS)))
    ∧ UpdateLatest.is_stable "DAI" = false ∧ Latest.is_stable "DAI" = false
    ∧ Latest.is_stable "AWUSDC" = false ∧ Latest.is_stable "WAUSDC" = false
    ∧ Latest.is_stable "AAUSDC" = false := by
  refine ⟨?_, ?_, by decide, by decide, by decide, by decide, by decide⟩
  · intro s
    by_cases h0 : s = ""
    · subst h0
      decide
    · rw [UpdateLatest.is_stable, if_neg h0]
      by_cases hA : pyStartsWith (pyStrip (pyUpper s)) 'A' ∧
          pyDrop1 (pyStrip (pyUpper s)) ∈ STABLE_SYMBOLS
      · simp only [if_pos hA, decide_eq_true_eq]
        exact ⟨fun _ => Or.inr ⟨by simpa using hA.1, hA.2⟩, fun _ => hA.2⟩
      · simp only [if_neg hA, decide_eq_true_eq]
        constructor
        · exact Or.inl
        · rintro (h | h)
          · exact h
          · exact absurd ⟨by simpa using h.1, h.2⟩ hA
  · intro s
    by_cases h0 : s = ""
    · subst h0
      decide
    · rw [Latest.is_stable, if_neg h0]
      by_cases hA : pyStartsWith (pyStrip (pyUpper s)) 'A' ∧
          pyDrop1 (pyStrip (pyUpper s)) ∈ STABLE_SYMBOLS
      · have hW : ¬ (pyStartsWith (pyDrop1 (pyStrip (pyUpper s))) 'W' = true ∧
            pyDrop1 (pyDrop1 (pyStrip (pyUpper s))) ∈ STABLE_SYMBOLS) := by
          rintro ⟨hw, -⟩
          exact absurd hw (by simp [stable_symbols_no_W _ hA.2])
        simp only [if_pos hA, if_neg hW, decide_eq_true_eq]
        exact ⟨fun _ => Or.inr ⟨Or.inl (by simpa using hA.1), hA.2⟩, fun _ => hA.2⟩
      · by_cases hWc : pyStartsWith (pyStrip (pyUpper s)) 'W' ∧
            pyDrop1 (pyStrip (pyUpper s)) ∈ STABLE_SYMBOLS
        · simp only [if_neg hA, if_pos hWc, decide_eq_true_eq]
          exact ⟨fun _ => Or.inr ⟨Or.inr (by simpa using hWc.1), hWc.2⟩, fun _ => hWc.2⟩
        · simp only [if_neg hA, if_neg hWc, decide_eq_true_eq]
          constructor
          · exact Or.inl
          · rintro (h | ⟨hc, hd⟩)
            · exact h
            · rcases hc with hc | hc
              · exact absurd ⟨by simpa using hc, hd⟩ hA
              · exact absurd ⟨by simpa using hc, hd⟩ hWc

/-! ## Characterizing the quality filter (C2, C6, C9) -/

/-- The five required numeric leaves of a reserve —
`(supplyApy, borrowApy, utilization, usdPerToken, supplyTotal)` — or
`none` when `supplyInfo`/`borrowInfo` is absent or any leaf is null (the
Normalizer's "incomplete candidate" signal). -/
def requiredFields (r : RawReserve) : Option (Rat × Rat × Rat × Rat × Rat) :=
  match r.supplyInfo, r.borrowInfo with
  | some si, some bi =>
    match (si.apy.getD ⟨none⟩).value, (bi.apy.getD ⟨none⟩).value,
        (bi.utilizationRate.getD ⟨none⟩).value, (bi.total.getD ⟨none⟩).usdPerToken,
        (si.total.getD ⟨none⟩).value with
    | some sa, some ba, some u, some p, some st => some (sa, ba, u, p, st)
    | _, _, _, _, _ => none
  | _, _ => none

/-- The symbol the Normalizer assigns: `token.get("symbol") or ""`. -/
def symbolOf (r : RawReserve) : String :=
  ((r.underlyingToken.getD ⟨none, none⟩).symbol).getD ""

/-- The address the Normalizer assigns: `token.get("address") or ""`. -/
def addrOf (r : RawReserve) : String :=
  ((r.underlyingToken.getD ⟨none, none⟩).address).getD ""

/-- Closed-form restatement of `processReserve`: skip on incomplete
fields, skip on a below-floor TVL, otherwise keep the fully-determined
row. -/
theorem processReserve_eq (minTvl : Rat) (chainId : Int)
    (chainName marketAddr : String) (r : RawReserve) :
    processReserve minTvl chainId chainName marketAddr r =
      match requiredFields r with
      | none => .skippedNull
      | some (sa, ba, u, p, st) =>
        if st * p < minTvl then .skippedSmall
        else .kept
          { chain := chainName, chainId := chainId, market := marketAddr,
            symbol := symbolOf r, underlyingToken := addrOf r,
            supplyApy := sa, borrowApy := ba, utilization := u,
            tvlUsd := st * p,
            isStable := UpdateLatest.is_stable (symbolOf r),
            isEthereum := UpdateLatest.is_eth chainId } := by
  obtain ⟨tok, si, bi⟩ := r
  rcases si with _ | si
  · rfl
  rcases bi with _ | bi
  · rfl
  simp only [processReserve, requiredFields, symbolOf, addrOf]
  rcases hsa : (si.apy.getD ⟨none⟩).value with _ | sa
  · simp [hsa]
  rcases hba : (bi.apy.getD ⟨none⟩).value with _ | ba
  · simp [hsa, hba]
  rcases hu : (bi.utilizationRate.getD ⟨none⟩).value with _ | u
  · simp [hsa, hba, hu]
  rcases hp : (bi.total.getD ⟨none⟩).usdPerToken with _ | p
  · simp [hsa, hba, hu, hp]
  rcases hst : (si.total.getD ⟨none⟩).value with _ | st
  · simp [hsa, hba, hu, hp, hst]
  simp [hsa, hba, hu, hp, hst]

/-- A kept row is completely determined: its candidate had all five
required fields, its TVL is `supplyTotal * usdPerToken`, and the floor
held. -/
theorem processReserve_kept_spec {minTvl : Rat} {chainId : Int}
    {chainName marketAddr : String} {r : RawReserve} {row : MarketRow}
    (h : processReserve minTvl chainId chainName marketAddr r = .kept row) :
    ∃ sa ba u p st, requiredFields r = some (sa, ba, u, p, st) ∧
      row = { chain := chainName, chainId := chainId, market := marketAddr,
              symbol := symbolOf r, underlyingToken := addrOf r,
              supplyApy := sa, borrowApy := ba, utilization := u,
              tvlUsd := st * p,
              isStable := UpdateLatest.is_stable (symbolOf r),
              isEthereum := UpdateLatest.is_eth chainId } ∧
      minTvl ≤ st * p := by
  rw [processReserve_eq] at h
  rcases hreq : requiredFields r with _ | ⟨sa, ba, u, p, st⟩ <;> rw [hreq] at h
  · exact absurd h (by simp)
  · by_cases htvl : st * p < minTvl
    · rw [show (match some (sa, ba, u, p, st) with
          | none => ReserveOutcome.skippedNull
          | some (sa, ba, u, p, st) =>
            if st * p < minTvl then ReserveOutcome.skippedSmall
            else ReserveOutcome.kept
              { chain := chainName, chainId := chainId, market := marketAddr,
                symbol := symbolOf r, underlyingToken := addrOf r,
                supplyApy := sa, borrowApy := ba, utilization := u,
                tvlUsd := st * p,
                isStable := UpdateLatest.is_stable (symbolOf r),
                isEthereum := UpdateLatest.is_eth chainId }) =
          if st * p < minTvl then ReserveOutcome.skippedSmall
          else ReserveOutcome.kept
            { chain := chainName, chainId := chainId, market := marketAddr,
              symbol := symbolOf r, underlyingToken := addrOf r,
              supplyApy := sa, borrowApy := ba, utilization := u,
              tvlUsd := st * p,
              isStable := UpdateLatest.is_stable (symbolOf r),
              isEthereum := UpdateLatest.is_eth chainId } from rfl,
        if_pos htvl] at h
      exact absurd h (by simp)
    · rw [show (match some (sa, ba, u, p, st) with
          | none => ReserveOutcome.skippedNull
          | some (sa, ba, u, p, st) =>
            if st * p < minTvl then ReserveOutcome.skippedSmall
            else ReserveOutcome.kept
              { chain := chainName, chainId := chainId, market := marketAddr,
                symbol := symbolOf r, underlyingToken := addrOf r,
                supplyApy := sa, borrowApy := ba, utilization := u,
                tvlUsd := st * p,
                isStable := UpdateLatest.is_stable (symbolOf r),
                isEthereum := UpdateLatest.is_eth chainId }) =
          if st * p < minTvl then ReserveOutcome.skippedSmall
          else ReserveOutcome.kept
            { chain := chainName, chainId := chainId, market := marketAddr,
              symbol := symbolOf r, underlyingToken := addrOf r,
              supplyApy := sa, borrowApy := ba, utilization := u,
              tvlUsd := st * p,
              isStable := UpdateLatest.is_stable (symbolOf r),
              isEthereum := UpdateLatest.is_eth chainId } from rfl,
        if_neg htvl] at h
      injection h with hrow
      exact ⟨sa, ba, u, p, st, rfl, hrow.symm, not_lt.mp htvl⟩

/-- One filter step preserves "all accumulated rows respect the floor". -/
theorem stepReserve_floor {minTvl : Rat} {chainId : Int}
    {chainName marketAddr : String} {acc : List MarketRow × Totals} {r : RawReserve}
    (hacc : ∀ row ∈ acc.1, minTvl ≤ row.tvlUsd) :
    ∀ row ∈ (stepReserve minTvl chainId chainName marketAddr acc r).1,
      minTvl ≤ row.tvlUsd := by
  intro row hrow
  rw [stepReserve] at hrow
  rcases hout : processReserve minTvl chainId chainName marketAddr r with _ | _ | newRow <;>
    simp only [hout] at hrow
  · exact hacc row hrow
  · exact hacc row hrow
  · rcases List.mem_append.mp hrow with hmem | hmem
    · exact hacc row hmem
    · obtain ⟨sa, ba, u, p, st, _, hnew, hfloor⟩ := processReserve_kept_spec hout
      have : row = newRow := by simpa using hmem
      rw [this, hnew]
      exact hfloor

/-- The whole reserve loop preserves the floor invariant. -/
theorem foldl_stepReserve_floor (minTvl : Rat) (chainId : Int)
    (chainName marketAddr : String) :
    ∀ (reserves : List RawReserve) (acc : List MarketRow × Totals),
      (∀ row ∈ acc.1, minTvl ≤ row.tvlUsd) →
      ∀ row ∈ (reserves.foldl (stepReserve minTvl chainId chainName marketAddr) acc).1,
        minTvl ≤ row.tvlUsd
  | [], _, hacc => hacc
  | _ :: rs, _, hacc =>
    foldl_stepReserve_floor minTvl chainId chainName marketAddr rs _
      (stepReserve_floor hacc)

/-- **C2**: every candidate the quality filter keeps had all five required
numeric fields non-null, and its `tvlUsd = supplyTotal * usdPerToken`
satisfies the floor; at the loop level, every row in the output list
respects `minTvlUsd ≤ tvlUsd`. -/
theorem kept_rows_complete_and_above_floor :
    (∀ (minTvl : Rat) (chainId : Int) (chainName marketAddr : String)
        (r : RawReserve) (row : MarketRow),
        processReserve minTvl chainId chainName marketAddr r = .kept row →
        ∃ sa ba u p st, requiredFields r = some (sa, ba, u, p, st) ∧
          row.tvlUsd = st * p ∧ minTvl ≤ row.tvlUsd)
    ∧ (∀ (minTvl : Rat) (chainId : Int) (chainName marketAddr : String)
        (reserves : List RawReserve),
        ∀ row ∈ (reserves.foldl (stepReserve minTvl chainId chainName marketAddr)
            ([], Totals.zero)).1,
          minTvl ≤ row.tvlUsd) := by
  constructor
  · intro minTvl chainId chainName marketAddr r row h
    obtain ⟨sa, ba, u, p, st, hreq, hrow, hfloor⟩ := processReserve_kept_spec h
    exact ⟨sa, ba, u, p, st, hreq, by rw [hrow], by rw [hrow]; exact hfloor⟩
  · intro minTvl chainId chainName marketAddr reserves
    exact foldl_stepReserve_floor minTvl chainId chainName marketAddr reserves
      ([], Totals.zero) (by simp)

/-- A complete reserve candidate (every leaf present, TVL `2000` from
`supplyTotal = 2000`, `usdPerToken = 1`). -/
def fullReserve : RawReserve :=
  { underlyingToken := some { address := some "0xusdc", symbol := some "USDC" },
    supplyInfo := some { apy := some ⟨some (mkRat 2 100)⟩, total := some ⟨some 2000⟩ },
    borrowInfo := some
      { apy := some ⟨some (mkRat 3 100)⟩, total := some ⟨some 1⟩,
        utilizationRate := some ⟨some (mkRat 1 2)⟩ } }

/-- The row the filter keeps for `fullReserve` at floor `10`. -/
def fullRow : MarketRow :=
  { chain := "ethereum", chainId := 1, market := "0xm", symbol := "USDC",
    underlyingToken := "0xusdc", supplyApy := mkRat 2 100, borrowApy := mkRat 3 100,
    utilization := mkRat 1 2, tvlUsd := 2000, isStable := true, isEthereum := true }

set_option maxRecDepth 10000 in
/-- Witness for C2 on the concrete kept candidate `fullReserve`. -/
theorem kept_rows_complete_and_above_floor_witness :
    (∃ sa ba u p st, requiredFields fullReserve = some (sa, ba, u, p, st) ∧
        fullRow.tvlUsd = st * p ∧ (10 : Rat) ≤ fullRow.tvlUsd)
    ∧ (10 : Rat) ≤ fullRow.tvlUsd :=
  ⟨kept_rows_complete_and_above_floor.1 10 1 "ethereum" "0xm" fullReserve fullRow
      (by with_unfolding_all decide),
    kept_rows_complete_and_above_floor.2 10 1 "ethereum" "0xm" [fullReserve] fullRow
      (by with_unfolding_all decide)⟩

/-! ## Counter discipline (C6) -/

/-- Loop invariant: the `reserves` counter equals the sum of the three
outcome counters, and the row list length equals `kept`. -/
def stateInv (x : List MarketRow × Totals) : Prop :=
  x.2.reserves = x.2.skipped_nulls + x.2.skipped_small + x.2.kept ∧
    x.1.length = x.2.kept

theorem stepReserve_inv {minTvl : Rat} {chainId : Int}
    {chainName marketAddr : String} {acc : List MarketRow × Totals} {r : RawReserve}
    (hacc : stateInv acc) :
    stateInv (stepReserve minTvl chainId chainName marketAddr acc r) := by
  obtain ⟨h1, h2⟩ := hacc
  rcases hout : processReserve minTvl chainId chainName marketAddr r with _ | _ | row <;>
    simp only [stepReserve, hout, stateInv, List.length_append, List.length_cons,
      List.length_nil] <;>
    omega

theorem foldl_stepReserve_inv (minTvl : Rat) (chainId : Int)
    (chainName marketAddr : String) :
    ∀ (reserves : List RawReserve) (acc : List MarketRow × Totals),
      stateInv acc →
      stateInv (reserves.foldl (stepReserve minTvl chainId chainName marketAddr) acc)
  | [], _, hacc => hacc
  | _ :: rs, _, hacc =>
    foldl_stepReserve_inv minTvl chainId chainName marketAddr rs _
      (stepReserve_inv hacc)

theorem processMarket_inv {minTvl : Rat} {m : MarketDesc} {p : GqlPayload}
    {acc out : List MarketRow × Totals}
    (h : processMarket minTvl m p acc = .ok out) (hacc : stateInv acc) :
    stateInv out := by
  rw [processMarket] at h
  by_cases he : p.errors ≠ []
  · rw [if_pos he] at h
    exact absurd h (by simp)
  · rw [if_neg he] at h
    rcases hm : p.market with _ | md <;> rw [hm] at h
    · exact absurd h (by simp)
    · simp only [Except.ok.injEq] at h
      rw [← h]
      exact foldl_stepReserve_inv _ _ _ _ _ _ hacc

theorem processMarkets_inv {minTvl : Rat} :
    ∀ {fetched : List (MarketDesc × GqlPayload)} {acc out : List MarketRow × Totals},
      processMarkets minTvl fetched acc = .ok out → stateInv acc → stateInv out := by
  intro fetched
  induction fetched with
  | nil =>
    intro acc out h hacc
    rw [processMarkets] at h
    simp only [Except.ok.injEq] at h
    rwa [← h]
  | cons mp rest ih =>
    intro acc out h hacc
    obtain ⟨m, p⟩ := mp
    rw [processMarkets] at h
    rcases hpm : processMarket minTvl m p acc with e | acc' <;> rw [hpm] at h
    · exact absurd h (by simp)
    · exact ih h (processMarket_inv hpm hacc)

/-- Inverting a successful run: the snapshot is assembled from a
successful `processMarkets` pass over a non-empty market list. -/
theorem runUpdate_ok_inversion {minTvlOpt : Option Rat}
    {fetched : List (MarketDesc × GqlPayload)} {snap : Snapshot}
    (h : runUpdate minTvlOpt fetched = .ok snap) :
    fetched ≠ [] ∧ ∃ rows totals,
      processMarkets (minTvlOpt.getD 10000000) fetched ([], Totals.zero)
          = .ok (rows, totals) ∧
      snap = { markets := sort_markets rows, counts := totals,
               minTvlUsd := minTvlOpt.getD 10000000 } := by
  rw [runUpdate] at h
  by_cases hempty : fetched = []
  · rw [if_pos hempty] at h
    exact absurd h (by simp)
  · rw [if_neg hempty] at h
    rcases hp : processMarkets (minTvlOpt.getD 10000000) fetched ([], Totals.zero)
        with e | ⟨rows, totals⟩ <;> rw [hp] at h
    · exact absurd h (by simp)
    · simp only [Except.ok.injEq] at h
      exact ⟨hempty, rows, totals, rfl, h.symm⟩

set_option maxRecDepth 10000 in
/-- **C6**: each candidate bumps `reserves` exactly once and exactly one
of the three outcome counters (appending a row exactly in the kept case,
so no skipped candidate reaches the output list); consequently every
successful run satisfies `reserves = skipped_nulls + skipped_small + kept`
and has exactly `kept` rows in its snapshot. -/
theorem counter_discipline :
    (∀ (minTvl : Rat) (chainId : Int) (chainName marketAddr : String)
        (acc : List MarketRow × Totals) (r : RawReserve),
        (stepReserve minTvl chainId chainName marketAddr acc r).2.reserves
            = acc.2.reserves + 1 ∧
        (((stepReserve minTvl chainId chainName marketAddr acc r).2.skipped_nulls
              = acc.2.skipped_nulls + 1 ∧
          (stepReserve minTvl chainId chainName marketAddr acc r).2.skipped_small
              = acc.2.skipped_small ∧
          (stepReserve minTvl chainId chainName marketAddr acc r).2.kept
              = acc.2.kept ∧
          (stepReserve minTvl chainId chainName marketAddr acc r).1 = acc.1)
        ∨ ((stepReserve minTvl chainId chainName marketAddr acc r).2.skipped_nulls
              = acc.2.skipped_nulls ∧
          (stepReserve minTvl chainId chainName marketAddr acc r).2.skipped_small
              = acc.2.skipped_small + 1 ∧
          (stepReserve minTvl chainId chainName marketAddr acc r).2.kept
              = acc.2.kept ∧
          (stepReserve minTvl chainId chainName marketAddr acc r).1 = acc.1)
        ∨ ((stepReserve minTvl chainId chainName marketAddr acc r).2.skipped_nulls
              = acc.2.skipped_nulls ∧
          (stepReserve minTvl chainId chainName marketAddr acc r).2.skipped_small
              = acc.2.skipped_small ∧
          (stepReserve minTvl chainId chainName marketAddr acc r).2.kept
              = acc.2.kept + 1 ∧
          ∃ row, processReserve minTvl chainId chainName marketAddr r = .kept row ∧
            (stepReserve minTvl chainId chainName marketAddr acc r).1
                = acc.1 ++ [row])))
    ∧ (∀ (minTvlOpt : Option Rat) (fetched : List (MarketDesc × GqlPayload))
        (snap : Snapshot),
        runUpdate minTvlOpt fetched = .ok snap →
        snap.counts.reserves = snap.counts.skipped_nulls + snap.counts.skipped_small
            + snap.counts.kept ∧
        snap.markets.length = snap.counts.kept) := by
  constructor
  · intro minTvl chainId chainName marketAddr acc r
    rcases hout : processReserve minTvl chainId chainName marketAddr r with _ | _ | row
    · exact ⟨by simp [stepReserve, hout], Or.inl (by simp [stepReserve, hout])⟩
    · exact ⟨by simp [stepReserve, hout], Or.inr (Or.inl (by simp [stepReserve, hout]))⟩
    · exact ⟨by simp [stepReserve, hout],
        Or.inr (Or.inr (by simp [stepReserve, hout]))⟩
  · intro minTvlOpt fetched snap h
    obtain ⟨-, rows, totals, hp, hsnap⟩ := runUpdate_ok_inversion h
    have hinv : stateInv (rows, totals) :=
      processMarkets_inv hp ⟨rfl, rfl⟩
    subst hsnap
    refine ⟨hinv.1, ?_⟩
    have hlen : (sort_markets rows).length = rows.length :=
      (sort_markets_perm rows).length_eq
    simpa [hlen] using hinv.2

/-- A one-market payload with one complete and one all-null reserve. -/
def mixedPayload : GqlPayload :=
  { errors := [],
    market := some
      { chain := { chainId := 1, name := some "Ethereum" },
        reserves := some [fullReserve, ⟨none, none, none⟩] } }

/-- The snapshot of the run over `mixedPayload` at floor `10`. -/
def mixedSnap : Snapshot :=
  { markets := [fullRow], counts := ⟨2, 1, 0, 1⟩, minTvlUsd := 10 }

set_option maxRecDepth 10000 in
/-- Witness for C6's run-level conjunct on a concrete one-market,
two-reserve run (one kept, one incomplete). -/
theorem counter_discipline_witness :
    mixedSnap.counts.reserves = mixedSnap.counts.skipped_nulls
        + mixedSnap.counts.skipped_small + mixedSnap.counts.kept ∧
      mixedSnap.markets.length = mixedSnap.counts.kept :=
  counter_discipline.2 (some 10) [(⟨1, "0xm"⟩, mixedPayload)] mixedSnap
    (by with_unfolding_all decide)

/-! ## Error propagation policy (C7) -/

/-- A market whose payload carries a GraphQL error array or a null
`market` makes the market pass raise. -/
theorem processMarkets_error_of_bad (minTvl : Rat) :
    ∀ (fetched : List (MarketDesc × GqlPayload)) (acc : List MarketRow × Totals),
      (∃ mp ∈ fetched, mp.2.errors ≠ [] ∨ mp.2.market = none) →
      ∃ e, processMarkets minTvl fetched acc = .error e := by
  intro fetched
  induction fetched with
  | nil =>
    intro acc h
    obtain ⟨mp, hmem, -⟩ := h
    exact absurd hmem (List.not_mem_nil mp)
  | cons hd rest ih =>
    intro acc hbad
    obtain ⟨m, p⟩ := hd
    rw [processMarkets, processMarket]
    by_cases he : p.errors ≠ []
    · rw [if_pos he]
      exact ⟨_, rfl⟩
    · rw [if_neg he]
      rcases hm : p.market with _ | md
      · exact ⟨_, rfl⟩
      · obtain ⟨mp, hmem, hb⟩ := hbad
        rcases List.mem_cons.mp hmem with rfl | hmem'
        · rcases hb with hb | hb
          · exact absurd hb he
          · rw [hm] at hb
            exact absurd hb (by simp)
        · exact ih _ ⟨mp, hmem', hb⟩

/-- If every payload passes both guards, the market pass succeeds. -/
theorem processMarkets_ok_of_good (minTvl : Rat) :
    ∀ (fetched : List (MarketDesc × GqlPayload)) (acc : List MarketRow × Totals),
      (∀ mp ∈ fetched, mp.2.errors = [] ∧ mp.2.market ≠ none) →
      ∃ out, processMarkets minTvl fetched acc = .ok out := by
  intro fetched
  induction fetched with
  | nil => exact fun acc _ => ⟨acc, rfl⟩
  | cons hd rest ih =>
    intro acc hgood
    obtain ⟨m, p⟩ := hd
    obtain ⟨he, hm⟩ := hgood (m, p) (List.mem_cons_self _ _)
    rcases hmd : p.market with _ | md
    · exact absurd hmd hm
    · obtain ⟨out, hout⟩ := ih
        ((md.reserves.getD []).foldl
          (stepReserve minTvl md.chain.chainId (pyLower (md.chain.name.getD ""))
            m.market) acc)
        (fun mp hmp => hgood mp (List.mem_cons_of_mem _ hmp))
      refine ⟨out, ?_⟩
      rw [processMarkets, processMarket, if_neg (not_not.mpr he), hmd]
      exact hout

/-- The error raised for a null market names the offending descriptor. -/
theorem processMarkets_notfound (minTvl : Rat) (m : MarketDesc) (p : GqlPayload)
    (rest : List (MarketDesc × GqlPayload)) (acc : List MarketRow × Totals)
    (he : p.errors = []) (hm : p.market = none) :
    processMarkets minTvl ((m, p) :: rest) acc =
      .error ("Market not found for chainId=" ++ toString m.chainId
        ++ " address=" ++ m.market) := by
  rw [processMarkets, processMarket, if_neg (by simp [he]), hm]

/-- **C7 counterexample**: for a payload carrying a GraphQL error array,
the raised error is a function of the error array alone — two different
descriptors produce the *same* error text, so that abort does not name
the offending descriptor (only the null-market abort does). -/
theorem gql_error_abort_does_not_name_descriptor :
    (⟨1, "0xAAA"⟩ : MarketDesc) ≠ ⟨10, "0xBBB"⟩ ∧
    runUpdate none [(⟨1, "0xAAA"⟩, ⟨["boom"], none⟩)]
        = .error "GraphQL errors: boom" ∧
    runUpdate none [(⟨10, "0xBBB"⟩, ⟨["boom"], none⟩)]
        = .error "GraphQL errors: boom" := by
  refine ⟨by decide, by decide, by decide⟩

/-- **C7 (amended)**: a GraphQL error array or a null market payload
anywhere in the fetched responses aborts the run — no snapshot is
produced (all-or-nothing); the null-market abort raises an error naming
the offending descriptor's chainId and address (the GraphQL-array abort
reports the error array instead); conversely, when every response passes
both guards the run always succeeds: missing numeric sub-fields or
below-floor TVLs inside reserves never fail the run. -/
theorem run_abort_policy :
    (∀ (minTvlOpt : Option Rat) (pre post : List (MarketDesc × GqlPayload))
        (m : MarketDesc) (p : GqlPayload),
        (p.errors ≠ [] ∨ p.market = none) →
        ∀ snap : Snapshot, runUpdate minTvlOpt (pre ++ (m, p) :: post) ≠ .ok snap)
    ∧ (∀ (minTvlOpt : Option Rat) (m : MarketDesc) (p : GqlPayload)
        (rest : List (MarketDesc × GqlPayload)),
        p.errors = [] → p.market = none →
        runUpdate minTvlOpt ((m, p) :: rest) =
          .error ("Market not found for chainId=" ++ toString m.chainId
            ++ " address=" ++ m.market))
    ∧ (∀ (minTvlOpt : Option Rat) (fetched : List (MarketDesc × GqlPayload)),
        fetched ≠ [] →
        (∀ mp ∈ fetched, mp.2.errors = [] ∧ mp.2.market ≠ none) →
        ∃ snap, runUpdate minTvlOpt fetched = .ok snap) := by
  refine ⟨?_, ?_, ?_⟩
  · intro minTvlOpt pre post m p hbad snap hok
    obtain ⟨-, rows, totals, hp, -⟩ := runUpdate_ok_inversion hok
    obtain ⟨e, herr⟩ := processMarkets_error_of_bad (minTvlOpt.getD 10000000)
      (pre ++ (m, p) :: post) ([], Totals.zero)
      ⟨(m, p), by simp, hbad⟩
    rw [hp] at herr
    exact absurd herr (by simp)
  · intro minTvlOpt m p rest he hm
    rw [runUpdate, if_neg (by simp),
      processMarkets_notfound (minTvlOpt.getD 10000000) m p rest ([], Totals.zero) he hm]
  · intro minTvlOpt fetched hne hgood
    obtain ⟨⟨rows, totals⟩, hout⟩ :=
      processMarkets_ok_of_good (minTvlOpt.getD 10000000) fetched ([], Totals.zero) hgood
    refine ⟨{ markets := sort_markets rows, counts := totals,
              minTvlUsd := minTvlOpt.getD 10000000 }, ?_⟩
    rw [runUpdate, if_neg hne, hout]

set_option maxRecDepth 10000 in
/-- Witness for C7 on concrete inputs: a bad payload in second position
aborts the run, a first-position null market raises the descriptor-naming
error, and an all-good fetch succeeds. -/
theorem run_abort_policy_witness :
    (runUpdate (some 10) [(⟨1, "0xm"⟩, mixedPayload), (⟨10, "0xBBB"⟩, ⟨["boom"], none⟩)]
        ≠ .ok mixedSnap)
    ∧ runUpdate (some 10) [(⟨5, "0xCCC"⟩, ⟨[], none⟩)]
        = .error "Market not found for chainId=5 address=0xCCC"
    ∧ ∃ snap, runUpdate (some 10) [(⟨1, "0xm"⟩, mixedPayload)] = .ok snap :=
  ⟨run_abort_policy.1 (some 10) [(⟨1, "0xm"⟩, mixedPayload)] [] ⟨10, "0xBBB"⟩
      ⟨["boom"], none⟩ (by decide) mixedSnap,
    by
      have h := run_abort_policy.2.1 (some 10) ⟨5, "0xCCC"⟩ ⟨[], none⟩ [] (by decide) (by decide)
      simpa using h,
    run_abort_policy.2.2 (some 10) [(⟨1, "0xm"⟩, mixedPayload)] (by decide) (by decide)⟩

/-! ## Normalizer fallbacks for a missing underlying token (C9) -/

/-- The symbol of a kept outcome, if any. -/
def outcomeSymbol : ReserveOutcome → Option String
  | .kept row => some row.symbol
  | _ => none

/-- Which of the three outcomes happened (0 = null-skip, 1 = floor-skip,
2 = kept). -/
def outcomeKind : ReserveOutcome → Nat
  | .skippedNull => 0
  | .skippedSmall => 1
  | .kept _ => 2

/-- A numerically complete reserve whose `underlyingToken` is absent. -/
def noTokenReserve : RawReserve :=
  { fullReserve with underlyingToken := none }

/-- The row kept for `noTokenReserve` at floor `10`: both fallbacks are
the empty string, and the symbol classifies as non-stable. -/
def noTokenRow : MarketRow :=
  { fullRow with symbol := "", underlyingToken := "", isStable := false }

set_option maxRecDepth 10000 in
/-- **C9 counterexample**: a reserve with an absent `underlyingToken` is
kept with symbol `""`, not the claimed `"UNKNOWN"`. -/
theorem normalizer_fallback_counterexample :
    outcomeSymbol (processReserve 10 1 "ethereum" "0xm" noTokenReserve) = some ""
    ∧ outcomeSymbol (processReserve 10 1 "ethereum" "0xm" noTokenReserve)
        ≠ some "UNKNOWN" := by
  constructor <;> with_unfolding_all decide

/-- The keep/skip classification never depends on the token object. -/
theorem processReserve_token_irrelevant (minTvl : Rat) (chainId : Int)
    (chainName marketAddr : String) (r : RawReserve) (t : Option TokenObj) :
    outcomeKind (processReserve minTvl chainId chainName marketAddr
        { r with underlyingToken := t })
      = outcomeKind (processReserve minTvl chainId chainName marketAddr r) := by
  obtain ⟨tok, si, bi⟩ := r
  rw [processReserve_eq, processReserve_eq]
  have hreq : requiredFields { underlyingToken := t, supplyInfo := si, borrowInfo := bi }
      = requiredFields ⟨tok, si, bi⟩ := rfl
  rw [hreq]
  rcases requiredFields (⟨tok, si, bi⟩ : RawReserve) with _ | ⟨sa, ba, u, p, st⟩
  · rfl
  · dsimp only
    split_ifs <;> rfl

/-- **C9 (amended)**: a reserve whose `underlyingToken` sub-object is
absent is not failed by the Normalizer — its symbol and address fall back
to the *empty string* (the source has no `"UNKNOWN"` fallback), and the
row proceeds through the rest of the pipeline: the keep/skip outcome is
decided by the numeric fields and the floor alone, independently of the
token object. -/
theorem normalizer_token_fallback :
    (∀ (minTvl : Rat) (chainId : Int) (chainName marketAddr : String)
        (r : RawReserve) (row : MarketRow),
        r.underlyingToken = none →
        processReserve minTvl chainId chainName marketAddr r = .kept row →
        row.symbol = "" ∧ row.underlyingToken = "")
    ∧ (∀ (minTvl : Rat) (chainId : Int) (chainName marketAddr : String)
        (r : RawReserve) (t : Option TokenObj),
        outcomeKind (processReserve minTvl chainId chainName marketAddr
            { r with underlyingToken := t })
          = outcomeKind (processReserve minTvl chainId chainName marketAddr r)) := by
  constructor
  · intro minTvl chainId chainName marketAddr r row ht h
    obtain ⟨sa, ba, u, p, st, -, hrow, -⟩ := processReserve_kept_spec h
    rw [hrow]
    constructor <;> simp [symbolOf, addrOf, ht]
  · exact processReserve_token_irrelevant

set_option maxRecDepth 10000 in
/-- Witness for the amended C9 on `noTokenReserve`. -/
theorem normalizer_token_fallback_witness :
    (noTokenRow.symbol = "" ∧ noTokenRow.underlyingToken = "")
    ∧ outcomeKind (processReserve 10 1 "ethereum" "0xm"
          { noTokenReserve with underlyingToken := fullReserve.underlyingToken })
        = outcomeKind (processReserve 10 1 "ethereum" "0xm" noTokenReserve) :=
  ⟨normalizer_token_fallback.1 10 1 "ethereum" "0xm" noTokenReserve noTokenRow
      (by decide) (by with_unfolding_all decide),
    normalizer_token_fallback.2 10 1 "ethereum" "0xm" noTokenReserve
      fullReserve.underlyingToken⟩

/-! ## The `minTvlUsd` default (C10) -/

/-- A well-formed market payload whose reserve list is empty. -/
def emptyReservesPayload : GqlPayload :=
  { errors := [],
    market := some
      { chain := { chainId := 1, name := some "Ethereum" }, reserves := some [] } }

/-- The snapshot of a run over `emptyReservesPayload` with the defaulted
floor recorded. -/
def defaultFloorSnap : Snapshot :=
  { markets := [], counts := ⟨0, 0, 0, 0⟩, minTvlUsd := 10000000 }

/-- **C10**: omitting the `minTvlUsd` key makes the whole run behave
exactly as if `10_000_000` had been configured (the filter floor is the
defaulted value), and a successful run records that defaulted value in
the snapshot's `minTvlUsd` field. -/
theorem default_min_tvl :
    (∀ fetched : List (MarketDesc × GqlPayload),
        runUpdate none fetched = runUpdate (some 10000000) fetched)
    ∧ (∀ (fetched : List (MarketDesc × GqlPayload)) (snap : Snapshot),
        runUpdate none fetched = .ok snap → snap.minTvlUsd = 10000000) := by
  constructor
  · intro fetched
    rfl
  · intro fetched snap h
    obtain ⟨-, rows, totals, -, hsnap⟩ := runUpdate_ok_inversion h
    simp [hsnap]

set_option maxRecDepth 10000 in
/-- Witness for C10 on a concrete run with an omitted `minTvlUsd` key. -/
theorem default_min_tvl_witness : defaultFloorSnap.minTvlUsd = 10000000 :=
  default_min_tvl.2 [(⟨1, "0xm"⟩, emptyReservesPayload)] defaultFloorSnap
    (by decide)

end DefiTracker
